import Mathlib

/-!
Shallow embedding of the monadic container subsystem of a JavaScript
functional-programming library: the `Maybe` and `Either` containers, the
synchronous and asynchronous effect wrappers, and their companion
functions (`mergeEithers`, `eitherToMaybe`, `mergeAsyncEffects`).

JavaScript values are modelled by the inductive type `JSValue`; the
mutable world threaded through effectful computations is modelled by
explicit state passing.  The `nary` arity adapter of the library only
changes the calling convention (curried versus n-ary), never the result,
so curried source functions are embedded as ordinary Lean functions.
-/

/-- Model of a JavaScript runtime value as used by the library: `null`,
`undefined`, booleans, numbers (modelled as integers; the code under
study performs no fractional arithmetic), strings, arrays, plain objects
(lists of distinct-keyed fields), and functions, of which only the
declared parameter count — the value of a function's own `length`
property — is observable to the predicates modelled here. -/
inductive JSValue where
  | vNull
  | vUndefined
  | vBool (b : Bool)
  | vNum (n : Int)
  | vStr (s : String)
  | vArr (elems : List JSValue)
  | vObj (fields : List (String × JSValue))
  | vFunc (arity : Nat)

open JSValue

/-- JavaScript `typeof` restricted to the modelled values; note that
`typeof null` is `"object"` in JavaScript. -/
def typeOf : JSValue → String
  | vNull => "object"
  | vUndefined => "undefined"
  | vBool _ => "boolean"
  | vNum _ => "number"
  | vStr _ => "string"
  | vArr _ => "object"
  | vObj _ => "object"
  | vFunc _ => "function"

/-- JavaScript strict equality `===` on the modelled values.  On
primitives it is value equality; composite values (arrays, objects,
functions) compare by reference, and the library code modelled here only
ever compares composites against `null` or against numbers, so composite
comparisons are modelled as `false`. -/
def jsEq : JSValue → JSValue → Bool
  | vNull, vNull => true
  | vUndefined, vUndefined => true
  | vBool a, vBool b => a == b
  | vNum a, vNum b => a == b
  | vStr a, vStr b => a == b
  | _, _ => false

/-- Embedding of `lengthOf = a => a.length` (src/src/utils.js): for a
string or an array its length, for a function its declared parameter
count, for a plain object the value of its own `length` field when
present (`undefined` otherwise), `undefined` on numbers and booleans.
On `null`/`undefined` the property access would throw in JavaScript,
but the library reaches `lengthOf` only behind `isNull`/`isUndefined`
guards, so those two cases are mapped to `undefined` here. -/
def lengthOf : JSValue → JSValue
  | vStr s => vNum (s.length : Int)
  | vArr xs => vNum (xs.length : Int)
  | vFunc n => vNum (n : Int)
  | vObj fs => (fs.lookup "length").getD vUndefined
  | _ => vUndefined

/-- Embedding of `Object.getOwnPropertyNames`: for a plain object its
field names, for an array the element indices together with `"length"`.
The library applies it only behind an `isObject` guard and never to
`null` (which would throw), so remaining cases map to an empty array. -/
def getOwnPropertyNames : JSValue → JSValue
  | vObj fs => vArr (fs.map fun f => vStr f.1)
  | vArr xs => vArr ((List.range xs.length).map (fun i => vStr (toString i)) ++ [vStr "length"])
  | _ => vArr []

/-- Embedding of `isEqual = nary(a => b => a === b)` (conditional module). -/
def isEqual (a b : JSValue) : Bool := jsEq a b

/-- Embedding of `isNull = isEqual(null)`. -/
def isNull (v : JSValue) : Bool := isEqual vNull v

/-- Embedding of `isUndefined = isTypeOf('undefined')`. -/
def isUndefined (v : JSValue) : Bool := typeOf v == "undefined"

/-- Embedding of `isObject = isTypeOf('object')`. -/
def isObject (v : JSValue) : Bool := typeOf v == "object"

/-- Embedding of `isFunction = isTypeOf('function')`. -/
def isFunction (v : JSValue) : Bool := typeOf v == "function"

/-- Embedding of `isLength = nary(a => b => isEqual(lengthOf(b))(a))`. -/
def isLength (a b : JSValue) : Bool := isEqual (lengthOf b) a

/-- Embedding of `isEmpty` (conditional module): true when the value's
`length` property is `0`, or when the value is an object with no own
property names. -/
def isEmpty (v : JSValue) : Bool :=
  isLength (vNum 0) v ||
    (if isObject v then isLength (vNum 0) (getOwnPropertyNames v) else false)

/-- Embedding of
`isNothing = anything => isNull(anything) || isUndefined(anything) || isEmpty(anything)`. -/
def isNothing (v : JSValue) : Bool := isNull v || isUndefined v || isEmpty v

/-- Model of the objects produced by the `Maybe` constructors
(src/src/Maybe.js).  Each such object carries a `value` field, and its
variant — fixed by which constructor built the object and observable
through the `isNothing`/`isJust` methods — is modelled by the boolean
field `nothingTag`. -/
structure MaybeObj where
  value : JSValue
  nothingTag : Bool

/-- The shared `Nothing` instance of src/src/Maybe.js: its `value` field
is `null`. -/
def NothingM : MaybeObj := ⟨vNull, true⟩

/-- The `Just` constructor of src/src/Maybe.js. -/
def Just (value : JSValue) : MaybeObj := ⟨value, false⟩

/-- The `isNothing` method of a Maybe object. -/
def MaybeObj.isNothing (m : MaybeObj) : Bool := m.nothingTag

/-- The `isJust` method of a Maybe object. -/
def MaybeObj.isJust (m : MaybeObj) : Bool := !m.nothingTag

/-- Embedding of `Maybe.of = value => isNothing(value) ? Nothing : Just(value)`. -/
def Maybe.of (value : JSValue) : MaybeObj :=
  if isNothing value then NothingM else Just value

/-- The `map` method of a Maybe object: `Nothing.map = () => Nothing`
and `Just(value).map = fn => Maybe.of(fn(value))`; the variant tag
selects which closure the object carries. -/
def MaybeObj.map (m : MaybeObj) (fn : JSValue → JSValue) : MaybeObj :=
  if m.isNothing then NothingM else Maybe.of (fn m.value)

/-- The `flatMap` method of a Maybe object: `Nothing.flatMap = () => Nothing`
and `Just(value).flatMap = fn => fn(value)`.  In JavaScript the
transform may also return a raw non-container value; the claims
modelled here use container-returning transforms. -/
def MaybeObj.flatMap (m : MaybeObj) (fn : JSValue → MaybeObj) : MaybeObj :=
  if m.isNothing then NothingM else fn m.value

/-- The `ap` method of a Maybe object: `Nothing.ap = () => Nothing` and
`Just(value).ap = f => f.map(value)`.  Applying the held value as a
JavaScript function cannot live inside the value model, so the
application semantics is supplied as the explicit interpretation
`call`. -/
def MaybeObj.ap (call : JSValue → JSValue → JSValue) (m f : MaybeObj) : MaybeObj :=
  if m.isNothing then NothingM else f.map (call m.value)

/-- Model of the objects produced by the `Either` constructors
(src/src/Either.js); the variant is modelled by the boolean field
`successTag`. -/
structure EitherObj where
  value : JSValue
  successTag : Bool

/-- The `Failure` constructor of src/src/Either.js. -/
def Failure (value : JSValue) : EitherObj := ⟨value, false⟩

/-- The `Success` constructor of src/src/Either.js. -/
def Success (value : JSValue) : EitherObj := ⟨value, true⟩

/-- The `isFailure` method of an Either object. -/
def EitherObj.isFailure (e : EitherObj) : Bool := !e.successTag

/-- The `isSuccess` method of an Either object. -/
def EitherObj.isSuccess (e : EitherObj) : Bool := e.successTag

/-- Embedding of `Either.of = value => Success(value)`. -/
def Either.of (value : JSValue) : EitherObj := Success value

/-- The `map` method of an Either object:
`Failure(value).map = () => Failure(value)` and
`Success(value).map = fn => Either.of(fn(value))`. -/
def EitherObj.map (e : EitherObj) (fn : JSValue → JSValue) : EitherObj :=
  if e.isFailure then Failure e.value else Either.of (fn e.value)

/-- The `flatMap` method of an Either object:
`Failure(value).flatMap = () => Failure(value)` and
`Success(value).flatMap = fn => fn(value)`. -/
def EitherObj.flatMap (e : EitherObj) (fn : JSValue → EitherObj) : EitherObj :=
  if e.isFailure then Failure e.value else fn e.value

/-- The `ap` method of an Either object, with the same explicit
application semantics `call` as `MaybeObj.ap`. -/
def EitherObj.ap (call : JSValue → JSValue → JSValue) (e f : EitherObj) : EitherObj :=
  if e.isFailure then Failure e.value else f.map (call e.value)

/-- Embedding of `identity = anything => anything` (src/src/core.js). -/
def identity (anything : JSValue) : JSValue := anything

/-- Embedding of the `either` eliminator (src/src/Either.js):
`functorEither.isFailure() ? onFailure(value) : onSuccess(value)`. -/
def either {γ : Type} (onFailure onSuccess : JSValue → γ) (functorEither : EitherObj) : γ :=
  if functorEither.isFailure then onFailure functorEither.value
  else onSuccess functorEither.value

/-- Embedding of
`eitherToMaybe = either (() => Nothing) (value => Maybe.of(value))`
(src/src/Either.js); the `onFailure` branch ignores its argument. -/
def eitherToMaybe (eitherMonad : EitherObj) : MaybeObj :=
  either (fun _ => NothingM) (fun value => Maybe.of value) eitherMonad

/-- Embedding of the JavaScript spread `[...accumulator.value, ...]` as
applied to the accumulator of `mergeEithers`, which always holds an
array payload. -/
def spreadArr : JSValue → List JSValue
  | vArr xs => xs
  | _ => []

/-- The reducer of `mergeEithers` (src/src/Either.js), written there as
an inline arrow function. -/
def mergeEithersReducer (accumulator current : EitherObj) : EitherObj :=
  if current.isFailure then
    if accumulator.isFailure then
      Failure (vArr (spreadArr accumulator.value ++ [current.value]))
    else Failure (vArr [current.value])
  else
    if accumulator.isFailure then accumulator
    else Success (vArr (spreadArr accumulator.value ++ [current.value]))

/-- Embedding of `mergeEithers` (src/src/Either.js): `reduce` — a left
fold — over the argument list starting from `Success([])`. -/
def mergeEithers (eithers : List EitherObj) : EitherObj :=
  eithers.foldl mergeEithersReducer (Success (vArr []))

/-- The five absence classes listed by the specification sentence for
absence classification: null, the missing-value marker, the empty
string, the empty array, and the empty object.  This definition follows
the words of the specification, to be compared with the source-derived
`isNothing`. -/
def listedEmpty : JSValue → Bool
  | vNull => true
  | vUndefined => true
  | vStr s => s.length == 0
  | vArr xs => xs.isEmpty
  | vObj fs => fs.isEmpty
  | _ => false

/-- True when an object's own `length` field holds the number `0`. -/
def hasZeroLengthField (fs : List (String × JSValue)) : Bool :=
  match fs.lookup "length" with
  | some (vNum n) => n == 0
  | _ => false

/-- Amended characterization of absence: the five listed classes
together with every value whose `length` property is the number `0` —
zero-parameter functions and objects carrying an own `length` field
equal to `0`. -/
def absentAmended : JSValue → Bool
  | vNull => true
  | vUndefined => true
  | vStr s => s.length == 0
  | vArr xs => xs.isEmpty
  | vObj fs => fs.isEmpty || hasZeroLengthField fs
  | vFunc n => n == 0
  | _ => false

/-- A synchronous effect (src/src/SyncEffect.js): holds exactly one
stored computation, modelled as a state transformer over an explicit
world `σ` that either returns a result or raises (`Except.error`) a
thrown JavaScript value.  The stored computation is not invoked at
construction or composition time; it runs exactly when, and as often
as, `trigger` is applied to a world. -/
structure SyncEff (σ α : Type) where
  trigger : σ → σ × Except JSValue α

/-- Embedding of `SyncEffect.of = trigger => getSyncEffect(trigger)`:
the computation is stored unchanged. -/
def SyncEffect.of {σ α : Type} (trigger : σ → σ × Except JSValue α) : SyncEff σ α :=
  ⟨trigger⟩

/-- The `map` method of a synchronous effect:
`fn => getSyncEffect(a => fn(trigger(a)))` — the new thunk runs the
stored computation and then applies `fn` to its result; a raised error
propagates and `fn` is not reached. -/
def SyncEff.map {σ α β : Type} (e : SyncEff σ α) (fn : α → β) : SyncEff σ β :=
  ⟨fun s =>
    match e.trigger s with
    | (s1, Except.ok a) => (s1, Except.ok (fn a))
    | (s1, Except.error err) => (s1, Except.error err)⟩

/-- The `flatMap` method of a synchronous effect:
`fn => getSyncEffect(() => getSyncEffect(trigger).map(fn).trigger().trigger())`
— the new thunk maps `fn` over the original effect, triggers that to
obtain a second effect, and then triggers the second effect. -/
def SyncEff.flatMap {σ α β : Type} (e : SyncEff σ α) (fn : α → SyncEff σ β) : SyncEff σ β :=
  ⟨fun s =>
    match (e.map fn).trigger s with
    | (s1, Except.ok second) => second.trigger s1
    | (s1, Except.error err) => (s1, Except.error err)⟩

/-- The counting thunk of the specification's laziness scenario,
`() => { count++; return count; }`, with the mutable `count` as the
explicit state. -/
def countThunk : Int → Int × Except JSValue Int :=
  fun count => (count + 1, Except.ok (count + 1))

/-- The laziness scenario pipeline
`SyncEffect.of(() => { count++; return count; }).map(x => x + 1)`. -/
def lazyScenario : SyncEff Int Int :=
  (SyncEffect.of countThunk).map (fun x => x + 1)

/-- Construction of the laziness scenario written as a computation over
the mutable `count`: building and composing the pipeline is a pure step
that performs no state change, because the wrapped computation is only
stored, never invoked. -/
def buildLazyScenario : Int → Int × SyncEff Int Int :=
  fun count => (count, (SyncEffect.of countThunk).map (fun x => x + 1))

/-- A callback (reject or resolve) of the asynchronous effect
container, acting on the explicit world `σ`. -/
def Callback (σ : Type) : Type := JSValue → σ → σ

/-- A raw computation handed to `AsyncEffect.of`: it receives the
reject callback, the resolve callback and the world, and returns the
new world together with `some e` when it synchronously threw the
JavaScript value `e` (`none` when it returned normally).  The source
additionally adapts curried computations through `nary`/`isFunction`;
that adapter only affects the calling convention and is omitted. -/
def AsyncComp (σ : Type) : Type := Callback σ → Callback σ → σ → σ × Option JSValue

/-- An asynchronous effect (src/src/AsyncEffect.js): holds exactly one
trigger function expecting a reject callback and a resolve callback.
Nothing runs until `trigger` is applied. -/
structure AsyncEff (σ : Type) where
  trigger : Callback σ → Callback σ → σ → σ

/-- Embedding of `AsyncEffect.of`: wraps the stored computation in
`try { ... } catch(error) { reject(error); }`, so a synchronously
thrown value is handed to the reject callback. -/
def AsyncEffect.of {σ : Type} (comp : AsyncComp σ) : AsyncEff σ :=
  ⟨fun reject resolve s =>
    match comp reject resolve s with
    | (s1, none) => s1
    | (s1, some err) => reject err s1⟩

/-- The `map` method of an asynchronous effect:
`fn => getAsyncEffect(reject => resolve => trigger(reject)(a => resolve(fn(a))))`. -/
def AsyncEff.map {σ : Type} (e : AsyncEff σ) (fn : JSValue → JSValue) : AsyncEff σ :=
  ⟨fun reject resolve s => e.trigger reject (fun a s1 => resolve (fn a) s1) s⟩

/-- The `flatMap` method of an asynchronous effect:
`fn => getAsyncEffect(reject => resolve => trigger(reject)(x => fn(x).trigger(reject)(resolve)))`. -/
def AsyncEff.flatMap {σ : Type} (e : AsyncEff σ) (fn : JSValue → AsyncEff σ) : AsyncEff σ :=
  ⟨fun reject resolve s => e.trigger reject (fun x s1 => (fn x).trigger reject resolve s1) s⟩

/-- An asynchronous counting computation over the mutable `count`: it
increments the count and resolves with the new value. -/
def asyncCountComp : AsyncComp Int :=
  fun _reject resolve count => (resolve (vNum (count + 1)) (count + 1), none)

/-- Construction and composition of an asynchronous pipeline written as
a computation over the mutable `count`: building performs no state
change. -/
def buildAsyncScenario : Int → Int × AsyncEff Int :=
  fun count => (count, (AsyncEffect.of asyncCountComp).map identity)

/-- A callback that ignores its payload and leaves the world
unchanged. -/
def noopCallback {σ : Type} : Callback σ := fun _ s => s

/-- A computation that synchronously throws the string `"boom"` without
invoking either callback. -/
def boomComp : AsyncComp (List JSValue) :=
  fun _reject _resolve s => (s, some (vStr "boom"))

/-- A callback recording its payload at the end of a trace. -/
def pushCallback : Callback (List JSValue) := fun v s => s ++ [v]

/-- An asynchronous effect that immediately rejects with `"err"`. -/
def rejectingEff : AsyncEff (List JSValue) :=
  AsyncEffect.of (fun reject _resolve s => (reject (vStr "err") s, none))

/-- A transform returning an effect that resolves with its input. -/
def resolveWithInput : JSValue → AsyncEff (List JSValue) :=
  fun x => AsyncEffect.of (fun _reject resolve s => (resolve x s, none))

/-- Denotational model of a settled asynchronous effect as observed
through its `promise()`: the abstract completion time at which it
settles together with its outcome — `Except.ok` for resolution,
`Except.error` for rejection.  Completion times order concurrent
completions; they are independent of argument order. -/
structure AsyncResult where
  time : Nat
  outcome : Except JSValue JSValue

/-- True when the result settled by rejecting. -/
def AsyncResult.isRejected (r : AsyncResult) : Bool :=
  match r.outcome with
  | Except.error _ => true
  | Except.ok _ => false

/-- The payload a settled result delivered (the resolved value or the
rejection payload). -/
def AsyncResult.payload (r : AsyncResult) : JSValue :=
  match r.outcome with
  | Except.ok v => v
  | Except.error e => e

/-- One step of scanning concurrently settling effects for the first
observed rejection: keep the rejection with the least completion time,
ties broken in favour of the earlier argument. -/
def firstRejectionStep (acc : Option AsyncResult) (p : AsyncResult) : Option AsyncResult :=
  if p.isRejected then
    match acc with
    | none => some p
    | some q => if p.time < q.time then some p else some q
  else acc

/-- The first rejection to be observed among concurrently settling
effects, if any. -/
def firstRejection (ps : List AsyncResult) : Option AsyncResult :=
  ps.foldl firstRejectionStep none

/-- Modelled from the spec: the host `Promise.all` combinator that
`mergeAsyncEffects` delegates to (the host primitive is not part of the
repository sources).  It waits for all inputs; when every input
resolves it resolves, once the last of them has settled, with the list
of all resolved values in input order; otherwise it rejects with the
payload of the first rejection to be observed. -/
def promiseAll (ps : List AsyncResult) : AsyncResult :=
  match firstRejection ps with
  | some r => ⟨r.time, Except.error r.payload⟩
  | none =>
    ⟨ps.foldl (fun m p => max m p.time) 0, Except.ok (vArr (ps.map AsyncResult.payload))⟩

/-- Embedding of
`mergeAsyncEffects = (...asyncEffects) => AsyncEffect.ofPromise(() => Promise.all(map(a => a.promise())(asyncEffects)))`
(src/src/AsyncEffect.js), at the level of the settled-outcome
denotation: `promise()` and `ofPromise` translate between an effect and
its settled outcome without altering resolve/reject semantics, so the
merge is `Promise.all` of the inputs' denotations. -/
def mergeAsyncEffects (asyncEffects : List AsyncResult) : AsyncResult :=
  promiseAll asyncEffects

/-- A transform producing, from a value `a`, a synchronous effect that
leaves the world unchanged and returns `a + 10`. -/
def addTenEffect : Int → SyncEff Int Int :=
  fun a => SyncEffect.of (fun s => (s, Except.ok (a + 10)))

/-- A synchronous thunk that throws the string `"thrown"` without
touching the world. -/
def throwingThunk : Int → Int × Except JSValue Int :=
  fun count => (count, Except.error (vStr "thrown"))

/-- A synchronous effect whose thunk throws. -/
def throwingEffect : SyncEff Int Int := SyncEffect.of throwingThunk

/-- Three concurrently settling effects: one resolving at time 5, one
rejecting at time 1, one rejecting at time 0. -/
def mixedResults : List AsyncResult :=
  [⟨5, Except.ok (vStr "a")⟩, ⟨1, Except.error (vStr "bad")⟩, ⟨0, Except.error (vStr "worse")⟩]

lemma natCast_beq_zero (n : Nat) : ((n : Int) == 0) = (n == 0) := by
  cases n <;> rfl

lemma fields_natCast_length_beq_zero (fs : List (String × JSValue)) :
    ((fs.length : Int) == 0) = fs.isEmpty := by
  cases fs <;> rfl

lemma fields_length_beq_zero (fs : List (String × JSValue)) :
    (fs.length == 0) = fs.isEmpty := by
  cases fs <;> rfl

lemma isNothing_eq_absentAmended (v : JSValue) : isNothing v = absentAmended v := by
  cases v with
  | vNull => rfl
  | vUndefined => rfl
  | vBool b => rfl
  | vNum n => rfl
  | vFunc n =>
    simp [isNothing, isNull, isEqual, jsEq, isUndefined, typeOf, isEmpty, isLength,
      lengthOf, isObject, absentAmended, natCast_beq_zero]
  | vStr s =>
    simp [isNothing, isNull, isEqual, jsEq, isUndefined, typeOf, isEmpty, isLength,
      lengthOf, isObject, absentAmended, natCast_beq_zero]
  | vArr xs =>
    simp only [isNothing, isNull, isEqual, jsEq, isUndefined, typeOf, isEmpty, isLength,
      lengthOf, getOwnPropertyNames, isObject, absentAmended]
    cases xs with
    | nil => rfl
    | cons a as => simp; omega
  | vObj fs =>
    simp only [isNothing, isNull, isEqual, jsEq, isUndefined, typeOf, isEmpty, isLength,
      lengthOf, getOwnPropertyNames, isObject, absentAmended]
    cases hl : fs.lookup "length" with
    | none =>
      simp [hl, jsEq, hasZeroLengthField, fields_natCast_length_beq_zero,
        fields_length_beq_zero, Bool.or_comm]
    | some w =>
      cases w <;>
        simp [hl, jsEq, hasZeroLengthField, fields_natCast_length_beq_zero,
          fields_length_beq_zero, Bool.or_comm, natCast_beq_zero]

lemma listedEmpty_imp_absentAmended (v : JSValue) (h : listedEmpty v = true) :
    absentAmended v = true := by
  cases v <;> simp_all [listedEmpty, absentAmended]

/-- C1 counterexample: a zero-parameter function is none of null,
undefined, the empty string, the empty array or the empty object, yet
`Maybe.of` classifies it as the Absent variant, because a JavaScript
function's own `length` property (its declared parameter count) is `0`
and `isEmpty` tests `lengthOf(x) === 0` first. -/
theorem maybe_of_zero_arity_function_counterexample :
    listedEmpty (vFunc 0) = false ∧
    Maybe.of (vFunc 0) = NothingM ∧
    Maybe.of (vFunc 0) ≠ Just (vFunc 0) :=
  ⟨rfl, rfl, fun h => Bool.noConfusion (congrArg MaybeObj.nothingTag h)⟩

/-- C1 (amended): every value of the five listed absence classes is
classified Absent by `Maybe.of`, and in general `Maybe.of v` is the
shared Nothing exactly when `v` falls in the amended absence classes —
the listed five together with any value whose `length` property is the
number `0` (zero-parameter functions, objects with an own `length`
field equal to `0`) — and is `Just v` for every other value. -/
theorem maybe_of_classification :
    (∀ v, listedEmpty v = true → Maybe.of v = NothingM) ∧
    (∀ v, Maybe.of v = if absentAmended v then NothingM else Just v) := by
  constructor
  · intro v hv
    simp [Maybe.of, isNothing_eq_absentAmended, listedEmpty_imp_absentAmended v hv]
  · intro v
    simp [Maybe.of, isNothing_eq_absentAmended]

/-- Witness for the amended C1 classification at the empty object. -/
theorem maybe_of_classification_witness : Maybe.of (vObj []) = NothingM :=
  maybe_of_classification.1 (vObj []) rfl

/-- C2: mapping the identity function over a container yields a
container observationally equivalent to the original, for the Absent
variant, for any Present variant respecting the data-model invariant
that its payload is not classified as absent, and for both Either
variants unconditionally. -/
theorem functor_identity_law :
    (NothingM.map identity = NothingM) ∧
    (∀ v, isNothing v = false → (Just v).map identity = Just v) ∧
    (∀ v, (Success v).map identity = Success v) ∧
    (∀ v, (Failure v).map identity = Failure v) := by
  refine ⟨rfl, fun v hv => ?_, fun v => rfl, fun v => rfl⟩
  simp [MaybeObj.map, MaybeObj.isNothing, Just, Maybe.of, identity, hv]

/-- Witness for the functor identity law at a Present payload. -/
theorem functor_identity_law_witness :
    (Just (vStr "7urtle")).map identity = Just (vStr "7urtle") :=
  functor_identity_law.2.1 (vStr "7urtle") rfl

/-- C3: mapping over `Just v` re-classifies the transform's result
through `Maybe.of`, so a transform producing an empty value degrades
the container to the Absent variant, while mapping over the Absent
variant returns the shared Nothing for every transform — the transform
argument is not consulted. -/
theorem maybe_map_reclassifies :
    (∀ v fn, (Just v).map fn = Maybe.of (fn v)) ∧
    ((Just (vNum 1)).map (fun _ => vStr "") = NothingM) ∧
    ((Just (vNum 1)).map (fun _ => vNum 2) = Just (vNum 2)) ∧
    (∀ fn, NothingM.map fn = NothingM) :=
  ⟨fun _ _ => rfl, rfl, rfl, fun _ => rfl⟩

/-- C10: the shared Nothing instance holds `null` in its `value` field;
its `map`, `flatMap` and `ap` methods return the same Nothing for every
argument; and converting any `Failure(e)` through `eitherToMaybe`
yields that Nothing — whose `value` is `null`, not `e`. -/
theorem nothing_shared_instance :
    (NothingM.value = vNull) ∧
    (∀ fn, NothingM.map fn = NothingM) ∧
    (∀ fn, NothingM.flatMap fn = NothingM) ∧
    (∀ call f, MaybeObj.ap call NothingM f = NothingM) ∧
    (∀ e, eitherToMaybe (Failure e) = NothingM) ∧
    ((eitherToMaybe (Failure (vStr "I am an error."))).value = vNull) :=
  ⟨rfl, fun _ => rfl, fun _ => rfl, fun _ _ => rfl, fun _ => rfl, rfl⟩

lemma mergeEithers_foldl_failure (es : List EitherObj) :
    ∀ fl : List JSValue,
      es.foldl mergeEithersReducer (Failure (vArr fl)) =
        Failure (vArr (fl ++ (es.filter (fun e => e.isFailure)).map (fun e => e.value))) := by
  induction es with
  | nil => intro fl; simp
  | cons e es ih =>
    intro fl
    cases hs : e.successTag with
    | false =>
      have hstep :
          mergeEithersReducer (Failure (vArr fl)) e = Failure (vArr (fl ++ [e.value])) := by
        simp [mergeEithersReducer, EitherObj.isFailure, Failure, spreadArr, hs]
      rw [List.foldl_cons, hstep, ih (fl ++ [e.value])]
      simp [List.filter_cons, EitherObj.isFailure, hs, List.append_assoc]
    | true =>
      have hstep :
          mergeEithersReducer (Failure (vArr fl)) e = Failure (vArr fl) := by
        simp [mergeEithersReducer, EitherObj.isFailure, Failure, spreadArr, hs]
      rw [List.foldl_cons, hstep, ih fl]
      simp [List.filter_cons, EitherObj.isFailure, hs]

lemma mergeEithers_foldl_success (es : List EitherObj) :
    ∀ sl : List JSValue,
      es.foldl mergeEithersReducer (Success (vArr sl)) =
        if es.all (fun e => e.isSuccess) then
          Success (vArr (sl ++ es.map (fun e => e.value)))
        else
          Failure (vArr ((es.filter (fun e => e.isFailure)).map (fun e => e.value))) := by
  induction es with
  | nil => intro sl; simp
  | cons e es ih =>
    intro sl
    cases hs : e.successTag with
    | false =>
      have hstep :
          mergeEithersReducer (Success (vArr sl)) e = Failure (vArr [e.value]) := by
        simp [mergeEithersReducer, EitherObj.isFailure, Failure, Success, hs]
      simp only [List.foldl_cons, hstep]
      rw [mergeEithers_foldl_failure es [e.value]]
      simp [List.all_cons, List.filter_cons, EitherObj.isSuccess, EitherObj.isFailure, hs]
    | true =>
      have hstep :
          mergeEithersReducer (Success (vArr sl)) e =
            Success (vArr (sl ++ [e.value])) := by
        simp [mergeEithersReducer, EitherObj.isFailure, Success, spreadArr, hs]
      simp only [List.foldl_cons, hstep]
      rw [ih (sl ++ [e.value])]
      simp [List.all_cons, List.filter_cons, EitherObj.isSuccess, EitherObj.isFailure, hs,
        List.append_assoc]

/-- C4: `mergeEithers` reduces its arguments left to right; when every
argument is Success it returns Success of the ordered list of all
payloads, and otherwise Failure of the ordered list of every Failure
payload encountered, Success payloads after a Failure being dropped.
In particular the two concrete cases required by the specification
hold. -/
theorem mergeEithers_spec :
    (∀ es, mergeEithers es =
        if es.all (fun e => e.isSuccess) then
          Success (vArr (es.map (fun e => e.value)))
        else
          Failure (vArr ((es.filter (fun e => e.isFailure)).map (fun e => e.value)))) ∧
    (mergeEithers
        [Success (vStr "a"), Failure (vStr "e1"), Failure (vStr "e2"), Success (vStr "b")] =
      Failure (vArr [vStr "e1", vStr "e2"])) ∧
    (mergeEithers [Success (vStr "a"), Success (vStr "b")] =
      Success (vArr [vStr "a", vStr "b"])) := by
  refine ⟨fun es => ?_, rfl, rfl⟩
  simpa [mergeEithers] using mergeEithers_foldl_success es []

/-- C5: constructing and composing the specification's laziness
scenario performs no state change — the wrapped computation is only
stored, never invoked, before `trigger`; triggering the composed
pipeline from `count = 0` leaves the count at `1` and returns `2`; and
every trigger re-runs the wrapped computation from the current count
(no memoization).  The asynchronous counterpart likewise performs no
state change at construction or composition time, and its computation
runs exactly when the effect is triggered. -/
theorem effect_laziness :
    (∀ count, buildLazyScenario count = (count, lazyScenario)) ∧
    (lazyScenario.trigger 0 = (1, Except.ok 2)) ∧
    (∀ count, lazyScenario.trigger count = (count + 1, Except.ok (count + 2))) ∧
    (∀ count, buildAsyncScenario count = (count, (AsyncEffect.of asyncCountComp).map identity)) ∧
    ((AsyncEffect.of asyncCountComp).trigger noopCallback noopCallback 0 = 1) := by
  refine ⟨fun _ => rfl, rfl, fun count => ?_, fun _ => rfl, rfl⟩
  have harith : count + 1 + 1 = count + 2 := by omega
  simp [lazyScenario, SyncEffect.of, SyncEff.map, countThunk, harith]

/-- C6: triggering `e.flatMap(f)` first triggers `e`; when `e` returns
a value `a`, the overall result is the second effect `f a` triggered in
the updated world; when `e` raises, the raised value propagates
unchanged and the transform is never consulted — the outcome is the
same for every transform. -/
theorem syncEffect_flatMap_double_trigger {σ α β : Type}
    (e : SyncEff σ α) (f : α → SyncEff σ β) (s : σ) :
    (∀ s1 a, e.trigger s = (s1, Except.ok a) →
      (e.flatMap f).trigger s = (f a).trigger s1) ∧
    (∀ s1 err, e.trigger s = (s1, Except.error err) →
      ∀ g : α → SyncEff σ β,
        (e.flatMap f).trigger s = (s1, Except.error err) ∧
        (e.flatMap f).trigger s = (e.flatMap g).trigger s) := by
  constructor
  · intro s1 a h
    simp [SyncEff.flatMap, SyncEff.map, h]
  · intro s1 err h g
    constructor <;> simp [SyncEff.flatMap, SyncEff.map, h]

/-- Witness for the double-trigger semantics of `flatMap`: a counting
effect chained into an effect adding ten, and a throwing effect whose
error propagates. -/
theorem syncEffect_flatMap_double_trigger_witness :
    ((SyncEffect.of countThunk).flatMap addTenEffect).trigger 0 = (1, Except.ok 11) ∧
    (throwingEffect.flatMap addTenEffect).trigger 0 = (0, Except.error (vStr "thrown")) := by
  constructor
  · exact ((syncEffect_flatMap_double_trigger (SyncEffect.of countThunk) addTenEffect 0).1
      1 1 rfl).trans rfl
  · exact ((syncEffect_flatMap_double_trigger throwingEffect addTenEffect 0).2
      0 (vStr "thrown") rfl addTenEffect).1

/-- C7: when the computation stored through `AsyncEffect.of` throws
synchronously during trigger, the wrapper catches the thrown value and
delivers it to the reject callback, exactly as if the computation had
called `reject` with that value; the resolve callback is not consulted
— the outcome is the same for every resolve callback. -/
theorem asyncEffect_of_catches {σ : Type} (comp : AsyncComp σ) (e : JSValue)
    (hthrow : ∀ rej res s, comp rej res s = (s, some e)) :
    ∀ (rej res res2 : Callback σ) (s : σ),
      (AsyncEffect.of comp).trigger rej res s = rej e s ∧
      (AsyncEffect.of comp).trigger rej res s = (AsyncEffect.of comp).trigger rej res2 s := by
  intro rej res res2 s
  constructor <;> simp [AsyncEffect.of, hthrow]

/-- Witness for the synchronous-throw normalization: a computation
throwing `"boom"` delivers `"boom"` to the reject callback. -/
theorem asyncEffect_of_catches_witness :
    (AsyncEffect.of boomComp).trigger pushCallback pushCallback [] = [vStr "boom"] :=
  ((asyncEffect_of_catches boomComp (vStr "boom") (fun _ _ _ => rfl)
    pushCallback pushCallback pushCallback []).1).trans rfl

/-- C8: in `e.flatMap(f)` the second effect is obtained and triggered
only inside the resolve continuation of `e`: when `e` resolves with
`v`, the composed trigger continues exactly as `f v` triggered in the
updated world; when `e` rejects with payload `p`, the composed effect
rejects with `p`, and the transform is never consulted — the outcome is
the same for every transform. -/
theorem asyncEffect_flatMap_short_circuit {σ : Type} (e : AsyncEff σ) :
    (∀ p : JSValue,
      (∀ rej res s, e.trigger rej res s = rej p s) →
      ∀ (f g : JSValue → AsyncEff σ) (rej res : Callback σ) (s : σ),
        (e.flatMap f).trigger rej res s = rej p s ∧
        (e.flatMap f).trigger rej res s = (e.flatMap g).trigger rej res s) ∧
    (∀ v : JSValue,
      (∀ rej res s, e.trigger rej res s = res v s) →
      ∀ (f : JSValue → AsyncEff σ) (rej res : Callback σ) (s : σ),
        (e.flatMap f).trigger rej res s = (f v).trigger rej res s) := by
  constructor
  · intro p hrej f g rej res s
    constructor <;> simp [AsyncEff.flatMap, hrej]
  · intro v hres f rej res s
    simp [AsyncEff.flatMap, hres]

/-- Witness for the short-circuit semantics of the asynchronous
`flatMap`: a rejecting first effect rejects the whole chain with its
payload, and a resolving first effect hands its value to the second. -/
theorem asyncEffect_flatMap_short_circuit_witness :
    (rejectingEff.flatMap resolveWithInput).trigger pushCallback pushCallback []
      = [vStr "err"] ∧
    ((resolveWithInput (vStr "ok")).flatMap resolveWithInput).trigger pushCallback pushCallback []
      = [vStr "ok"] := by
  constructor
  · exact (((asyncEffect_flatMap_short_circuit rejectingEff).1 (vStr "err")
      (fun _ _ _ => rfl) resolveWithInput resolveWithInput
      pushCallback pushCallback []).1).trans rfl
  · exact (((asyncEffect_flatMap_short_circuit (resolveWithInput (vStr "ok"))).2 (vStr "ok")
      (fun _ _ _ => rfl) resolveWithInput pushCallback pushCallback [])).trans rfl

lemma firstRejectionStep_some (a p : AsyncResult) :
    firstRejectionStep (some a) p =
      some (if p.isRejected then (if p.time < a.time then p else a) else a) := by
  unfold firstRejectionStep
  by_cases hp : p.isRejected <;> by_cases ht : p.time < a.time <;> simp [hp, ht]

lemma foldl_firstRejectionStep_some (ps : List AsyncResult) :
    ∀ a : AsyncResult, ∃ r, ps.foldl firstRejectionStep (some a) = some r := by
  induction ps with
  | nil => exact fun a => ⟨a, rfl⟩
  | cons p ps ih =>
    intro a
    rw [List.foldl_cons, firstRejectionStep_some]
    exact ih _

lemma firstRejection_some_aux (ps : List AsyncResult) :
    ∀ (acc : Option AsyncResult) (r : AsyncResult),
      ps.foldl firstRejectionStep acc = some r →
      (acc = some r ∨ (r.isRejected = true ∧ r ∈ ps)) ∧
      (∀ a, acc = some a → r.time ≤ a.time) ∧
      (∀ q ∈ ps, q.isRejected = true → r.time ≤ q.time) := by
  induction ps with
  | nil =>
    intro acc r h
    simp only [List.foldl_nil] at h
    refine ⟨Or.inl h, fun a ha => ?_, fun q hq => absurd hq (List.not_mem_nil q)⟩
    rw [h] at ha
    cases ha
    exact Nat.le_refl _
  | cons p ps ih =>
    intro acc r h
    rw [List.foldl_cons] at h
    have H := ih (firstRejectionStep acc p) r h
    cases hp : p.isRejected with
    | false =>
      have hstep : firstRejectionStep acc p = acc := by
        simp [firstRejectionStep, hp]
      rw [hstep] at H
      refine ⟨?_, H.2.1, fun q hq hqr => ?_⟩
      · rcases H.1 with h1 | h1
        · exact Or.inl h1
        · exact Or.inr ⟨h1.1, List.mem_cons_of_mem p h1.2⟩
      · rcases List.mem_cons.mp hq with rfl | hq2
        · rw [hp] at hqr; cases hqr
        · exact H.2.2 q hq2 hqr
    | true =>
      cases acc with
      | none =>
        have hstep : firstRejectionStep none p = some p := by
          simp [firstRejectionStep, hp]
        rw [hstep] at H
        refine ⟨?_, ?_, ?_⟩
        · rcases H.1 with h1 | h1
          · cases h1
            exact Or.inr ⟨hp, List.mem_cons_self p ps⟩
          · exact Or.inr ⟨h1.1, List.mem_cons_of_mem p h1.2⟩
        · intro a ha
          cases ha
        · intro q hq hqr
          rcases List.mem_cons.mp hq with rfl | hq2
          · exact H.2.1 q rfl
          · exact H.2.2 q hq2 hqr
      | some a =>
        by_cases ht : p.time < a.time
        · have hstep : firstRejectionStep (some a) p = some p := by
            simp [firstRejectionStep, hp, ht]
          rw [hstep] at H
          refine ⟨?_, fun b hb => ?_, fun q hq hqr => ?_⟩
          · rcases H.1 with h1 | h1
            · cases h1
              exact Or.inr ⟨hp, List.mem_cons_self p ps⟩
            · exact Or.inr ⟨h1.1, List.mem_cons_of_mem p h1.2⟩
          · cases hb
            exact Nat.le_trans (H.2.1 p rfl) (Nat.le_of_lt ht)
          · rcases List.mem_cons.mp hq with rfl | hq2
            · exact H.2.1 q rfl
            · exact H.2.2 q hq2 hqr
        · have hstep : firstRejectionStep (some a) p = some a := by
            simp [firstRejectionStep, hp, ht]
          rw [hstep] at H
          refine ⟨?_, fun b hb => ?_, fun q hq hqr => ?_⟩
          · rcases H.1 with h1 | h1
            · exact Or.inl h1
            · exact Or.inr ⟨h1.1, List.mem_cons_of_mem p h1.2⟩
          · cases hb
            exact H.2.1 a rfl
          · rcases List.mem_cons.mp hq with rfl | hq2
            · exact Nat.le_trans (H.2.1 a rfl) (Nat.le_of_not_lt ht)
            · exact H.2.2 q hq2 hqr

lemma firstRejection_none_of_all_ok (tvs : List (Nat × JSValue)) :
    firstRejection (tvs.map fun tv => AsyncResult.mk tv.1 (Except.ok tv.2)) = none := by
  induction tvs with
  | nil => rfl
  | cons tv tvs ih =>
    simp only [List.map_cons, firstRejection, List.foldl_cons]
    have hstep :
        firstRejectionStep none (AsyncResult.mk tv.1 (Except.ok tv.2)) = none := rfl
    rw [hstep]
    exact ih

lemma firstRejection_isSome_of_rejected (ps : List AsyncResult) :
    ∀ q ∈ ps, q.isRejected = true → ∃ r, firstRejection ps = some r := by
  induction ps with
  | nil => intro q hq; exact absurd hq (List.not_mem_nil q)
  | cons p ps ih =>
    intro q hq hqr
    unfold firstRejection
    rw [List.foldl_cons]
    cases hstep : firstRejectionStep none p with
    | some b =>
      exact foldl_firstRejectionStep_some ps b
    | none =>
      rcases List.mem_cons.mp hq with rfl | hq2
      · exfalso
        unfold firstRejectionStep at hstep
        rw [hqr] at hstep
        cases hstep
      · exact ih q hq2 hqr

/-- C9: when every input effect resolves, `mergeAsyncEffects` resolves
with the ordered list of all results in input-argument order, whatever
the completion times; and when some input rejects, the first rejection
to be observed exists — it is a rejection among the inputs of minimal
completion time — and the merged effect rejects with its payload. -/
theorem mergeAsyncEffects_spec :
    (∀ tvs : List (Nat × JSValue),
      (mergeAsyncEffects (tvs.map fun tv => AsyncResult.mk tv.1 (Except.ok tv.2))).outcome =
        Except.ok (vArr (tvs.map fun tv => tv.2))) ∧
    (∀ ps r, firstRejection ps = some r →
      r.isRejected = true ∧ r ∈ ps ∧
      (∀ q ∈ ps, q.isRejected = true → r.time ≤ q.time) ∧
      mergeAsyncEffects ps = AsyncResult.mk r.time (Except.error r.payload)) ∧
    (∀ ps, (∃ q ∈ ps, q.isRejected = true) → ∃ r, firstRejection ps = some r) := by
  refine ⟨fun tvs => ?_, fun ps r h => ?_, fun ps hex => ?_⟩
  · simp only [mergeAsyncEffects, promiseAll, firstRejection_none_of_all_ok]
    simp [List.map_map, Function.comp, AsyncResult.payload]
  · have H := firstRejection_some_aux ps none r h
    have hmem : r.isRejected = true ∧ r ∈ ps := by
      rcases H.1 with h1 | h1
      · cases h1
      · exact h1
    refine ⟨hmem.1, hmem.2, H.2.2, ?_⟩
    simp [mergeAsyncEffects, promiseAll, h]
  · obtain ⟨q, hq, hqr⟩ := hex
    exact firstRejection_isSome_of_rejected ps q hq hqr

/-- Witness for `mergeAsyncEffects`: among one resolving and two
rejecting effects, the merge rejects with the payload of the
earliest-settling rejection; and two resolving effects merge into the
ordered list of their values. -/
theorem mergeAsyncEffects_spec_witness :
    mergeAsyncEffects mixedResults = AsyncResult.mk 0 (Except.error (vStr "worse")) ∧
    (∃ r, firstRejection mixedResults = some r) ∧
    (mergeAsyncEffects
        [AsyncResult.mk 9 (Except.ok (vStr "v1")), AsyncResult.mk 2 (Except.ok (vStr "v2"))]).outcome =
      Except.ok (vArr [vStr "v1", vStr "v2"]) := by
  refine ⟨?_, ?_, ?_⟩
  · exact (mergeAsyncEffects_spec.2.1 mixedResults
      (AsyncResult.mk 0 (Except.error (vStr "worse"))) rfl).2.2.2
  · exact mergeAsyncEffects_spec.2.2 mixedResults
      ⟨AsyncResult.mk 1 (Except.error (vStr "bad")),
        List.mem_cons_of_mem _ (List.mem_cons_self _ _), rfl⟩
  · exact mergeAsyncEffects_spec.1 [(9, vStr "v1"), (2, vStr "v2")]
